import Mathlib

/-!
Verification of the schema-driven extraction engine of the `aem-mhast`
repository (`schemaExtractor` module): a recursive algorithm that maps a
block element of a parsed HTML tree, together with an externally supplied
JSON schema, to a structured value.

The embedding below translates the source functions one for one:
`fetchBlockSchema`, `extractValueFromElement`, `findElement`,
`extractStringValue`, `extractArrayValue`, `extractObjectValue`,
`extractSchemaValue` and `extractBlockWithSchema`. JavaScript truthiness
tests on strings and on option-like values are made explicit
(`jsTruthyS`, `jsOrStr`, `jsFilterBoolean`). Side effects are limited to
`console.warn` diagnostics, modelled by a transcript of structured
`LogMsg` values returned alongside each result.
-/

set_option maxHeartbeats 1000000

namespace Mhast

/-- A hast element: tag name, properties (attribute name to string value),
and children, each child either a text node (`Sum.inl`) or a child element
(`Sum.inr`). Modelled from the spec: the parsed element tree that the
extraction engine consumes; attribute values are taken to be strings. -/
inductive Element where
  | mk (tagName : String) (properties : List (String × String))
      (children : List (String ⊕ Element))

def Element.tagName : Element → String
  | .mk t _ _ => t

def Element.props : Element → List (String × String)
  | .mk _ ps _ => ps

def Element.children : Element → List (String ⊕ Element)
  | .mk _ _ cs => cs

/-- Attribute lookup on an element: `element.properties[attributeName]`. -/
def getProp (e : Element) (attributeName : String) : Option String :=
  (e.props.find? (fun pr => pr.1 == attributeName)).map Prod.snd

mutual

/-- Modelled from the spec: `getText` of the repository's `utils` module
(not under `src/`): descendant text, concatenated in document order with
no separator. -/
def getText : Element → String
  | .mk _ _ cs => getTextChildren cs

def getTextChildren : List (String ⊕ Element) → String
  | [] => ""
  | Sum.inl s :: rest => s ++ getTextChildren rest
  | Sum.inr e :: rest => getText e ++ getTextChildren rest

end

/-- Modelled from the spec: selector matching of the external tree-query
facade (`hast-util-select`), modelled as tag-name equality. -/
def selMatches (selector : String) (e : Element) : Bool :=
  e.tagName == selector

/-- Modelled from the spec: all selector matches among a child list, in
document order (preorder), descending into child elements. -/
def selectAllChildren (selector : String) : List (String ⊕ Element) → List Element
  | [] => []
  | Sum.inl _ :: rest => selectAllChildren selector rest
  | Sum.inr (.mk t ps cs) :: rest =>
    (if selMatches selector (.mk t ps cs) then [Element.mk t ps cs] else [])
      ++ selectAllChildren selector cs ++ selectAllChildren selector rest

/-- Modelled from the spec: `selectAll` — every proper descendant of
`contextNode` matching the selector, in document order. -/
def selectAll (selector : String) (contextNode : Element) : List Element :=
  selectAllChildren selector contextNode.children

/-- Modelled from the spec: `select` — the first proper descendant of
`contextNode` matching the selector, in document order. -/
def eselect (selector : String) (contextNode : Element) : Option Element :=
  (selectAll selector contextNode).head?

/-- JavaScript truthiness of an optional string: `undefined`/`null` and
the empty string are falsy. -/
def jsTruthyS : Option String → Bool
  | none => false
  | some s => s != ""

/-- JavaScript `a || b` for an optional string `a` and a string `b`. -/
def jsOrStr (a : Option String) (b : String) : String :=
  match a with
  | some s => if s = "" then b else s
  | none => b

/-- The attribute-name resolution of `extractStringValue`:
`property['x-eds-attribute'] || propertyName || 'text'`. -/
def resolveAttributeName (attr propertyName : Option String) : String :=
  jsOrStr attr (jsOrStr propertyName "text")

/-- Modelled from the spec: trimming of leading and trailing whitespace
(JavaScript `String.prototype.trim`). -/
def jsTrim (s : String) : String :=
  String.mk (((s.data.dropWhile Char.isWhitespace).reverse.dropWhile
    Char.isWhitespace).reverse)

/-- Source `extractValueFromElement`: the text sentinel reads trimmed
descendant text; otherwise the attribute is read, falling back to trimmed
text whenever the attribute value is not truthy (absent or empty). -/
def extractValueFromElement (element : Element) (attributeName : String) : String :=
  if attributeName = "text" then jsTrim (getText element)
  else
    match getProp element attributeName with
    | some v => if v = "" then jsTrim (getText element) else v
    | none => jsTrim (getText element)

/-- Source `findElement`: a truthy selector queries the context (first
match); otherwise the shared element (or nothing) is returned. -/
def findElement (contextNode : Element) (selector : Option String)
    (sharedElement : Option Element) : Option Element :=
  match selector with
  | some s => if s = "" then sharedElement else eselect s contextNode
  | none => sharedElement

/-- Source `extractStringValue`, with the `StringSchemaProperty` fields
(`x-eds-selector`, `x-eds-attribute`) passed explicitly. Returns the
extracted string or omission; `value || null` makes an empty extracted
string an omission. -/
def extractStringValue (contextNode : Element) (selector attr : Option String)
    (sharedElement : Option Element) (propertyName : Option String) : Option String :=
  match findElement contextNode selector sharedElement with
  | some element =>
    let attributeName := resolveAttributeName attr propertyName
    let value := extractValueFromElement element attributeName
    if value = "" then none else some value
  | none =>
    if !jsTruthyS selector && sharedElement.isNone then
      let attributeName := resolveAttributeName attr propertyName
      let value := extractValueFromElement contextNode attributeName
      if value = "" then none else some value
    else none

/-- The `SchemaProperty` tagged union of the source. `str`, `arr` and
`obj` carry the fields read by the engine (`x-eds-selector`,
`x-eds-attribute`, `items`, `properties`, `required`); `other` is a
property whose `type` tag is any string other than the three recognized
ones (possibly empty, as the schema is untrusted JSON). -/
inductive SchemaProperty where
  | str (selector : Option String) (attr : Option String)
  | arr (selector : Option String) (items : Option SchemaProperty)
  | obj (selector : Option String)
      (properties : Option (List (String × SchemaProperty)))
      (required : Option (List String))
  | other (typeTag : String)

/-- The `type` tag carried by a schema property. -/
def SchemaProperty.typeTag : SchemaProperty → String
  | .str _ _ => "string"
  | .arr _ _ => "array"
  | .obj _ _ _ => "object"
  | .other t => t

/-- The root `BlockSchema` document: named fields plus the informational
`required` list (title and description are never read by the engine). -/
structure BlockSchema where
  properties : Option (List (String × SchemaProperty))
  required : Option (List String)

/-- An extracted JSON-compatible value. -/
inductive Value where
  | str (s : String)
  | arr (vs : List Value)
  | obj (fields : List (String × Value))

/-- JavaScript truthiness of a value: only the empty string is falsy
(arrays and objects are always truthy). -/
def truthyV : Value → Bool
  | .str s => s != ""
  | .arr _ => true
  | .obj _ => true

/-- JavaScript `.filter(Boolean)` over a list of possibly-null values. -/
def jsFilterBoolean (rs : List (Option Value)) : List Value :=
  rs.filterMap (fun r =>
    match r with
    | some v => if truthyV v then some v else none
    | none => none)

/-- One `console.warn` call of the source, with the data it interpolates. -/
inductive LogMsg where
  | warnDomainExtract (sourceUrl : String)
  | warnNoDomain (blockName : String)
  | warnSchemaNotFound (blockName schemaUrl : String) (status : Nat)
  | warnFetchFailed (blockName err : String)
  | warnUnsupportedType (typeTag : String)
  | warnFieldError (blockName fieldName err : String)
  | warnInvalidInput (blockName : String)

mutual

/-- Source `extractSchemaValue`: input validation (`!property.type`
rejects an empty tag silently), then dispatch on the type tag; the
default branch warns about an unsupported tag and omits. -/
def extractSchemaValue (contextNode : Element) (property : SchemaProperty)
    (sharedElement : Option Element) (propertyName : Option String) :
    Option Value × List LogMsg :=
  match property with
  | .str sel attr =>
    ((extractStringValue contextNode sel attr sharedElement propertyName).map Value.str, [])
  | .arr sel items => extractArrayValue contextNode sel items
  | .obj sel props _ => extractObjectValue contextNode sel props
  | .other t =>
    if t = "" then (none, []) else (none, [LogMsg.warnUnsupportedType t])
termination_by (sizeOf property, 0)

/-- Source `extractArrayValue`: requires a truthy selector and an items
schema; queries all matches, extracts each with no shared element and no
property name, filters with `.filter(Boolean)`, and omits an empty
collection. -/
def extractArrayValue (contextNode : Element) (selector : Option String)
    (items : Option SchemaProperty) : Option Value × List LogMsg :=
  match selector, items with
  | some s, some itemsSchema =>
    if s = "" then (none, [])
    else
      let elements := selectAll s contextNode
      if elements.isEmpty then (none, [])
      else
        let rs := extractItems elements itemsSchema
        let results := jsFilterBoolean rs.1
        (if results.isEmpty then none else some (Value.arr results), rs.2)
  | _, _ => (none, [])
termination_by (sizeOf items, 0)

/-- The `elements.map(element => extractSchemaValue(element, items, null))`
loop of `extractArrayValue`, with the transcripts concatenated in order. -/
def extractItems (elements : List Element) (itemsSchema : SchemaProperty) :
    List (Option Value) × List LogMsg :=
  match elements with
  | [] => ([], [])
  | e :: rest =>
    let r := extractSchemaValue e itemsSchema none none
    let rr := extractItems rest itemsSchema
    (r.1 :: rr.1, r.2 ++ rr.2)
termination_by (sizeOf itemsSchema, elements.length + 1)

/-- Source `extractObjectValue`: requires a `properties` mapping; a truthy
selector resolves one shared element by a single first-match query; each
child field is extracted against `sharedElement || contextNode` with the
shared element and its own name passed down; an empty result mapping is
omitted. -/
def extractObjectValue (contextNode : Element) (selector : Option String)
    (properties : Option (List (String × SchemaProperty))) :
    Option Value × List LogMsg :=
  match properties with
  | none => (none, [])
  | some fields =>
    let sharedElement : Option Element :=
      match selector with
      | some s => if s = "" then none else eselect s contextNode
      | none => none
    let r := extractFields contextNode sharedElement fields
    (if r.1.isEmpty then none else some (Value.obj r.1), r.2)
termination_by (sizeOf properties, 0)

/-- The field loop of `extractObjectValue`, in declaration order: omitted
children are dropped, extracted ones are keyed by field name. -/
def extractFields (contextNode : Element) (sharedElement : Option Element)
    (fields : List (String × SchemaProperty)) :
    List (String × Value) × List LogMsg :=
  match fields with
  | [] => ([], [])
  | (propName, propSchema) :: rest =>
    let extractionContext := sharedElement.getD contextNode
    let r := extractSchemaValue extractionContext propSchema sharedElement (some propName)
    let rr := extractFields contextNode sharedElement rest
    ((match r.1 with | some v => [(propName, v)] | none => []) ++ rr.1,
     r.2 ++ rr.2)
termination_by (sizeOf fields, 0)

end

/-- A per-field extractor as seen by the driver's `try`/`catch`: the
JavaScript call `extractSchemaValue(blockNode, propertySchema, null,
propertyName)` may either return a value (with its warnings) or throw. -/
def Extractor : Type :=
  Element → SchemaProperty → Option Element → Option String →
    Except String (Option Value × List LogMsg)

/-- The root field loop of `extractBlockWithSchema`, generic in the
per-field extractor so that the `catch` branch is part of the model: an
exception is logged with the block name and field name and the loop
continues. -/
def runBlockFields (f : Extractor) (blockNode : Element) (blockName : String) :
    List (String × SchemaProperty) → List (String × Value) × List LogMsg
  | [] => ([], [])
  | (propertyName, propertySchema) :: rest =>
    let rr := runBlockFields f blockNode blockName rest
    match f blockNode propertySchema none (some propertyName) with
    | .ok (some v, logs) => ((propertyName, v) :: rr.1, logs ++ rr.2)
    | .ok (none, logs) => (rr.1, logs ++ rr.2)
    | .error e => (rr.1, LogMsg.warnFieldError blockName propertyName e :: rr.2)

/-- Source `extractBlockWithSchema`, generic in the per-field extractor:
input validation (missing block node, missing schema, or missing root
`properties`) warns once and omits; otherwise the root fields are
iterated in declaration order with no shared element and an empty result
mapping is omitted. -/
def extractBlockWithSchemaF (f : Extractor) (blockNode : Option Element)
    (schema : Option BlockSchema) (blockName : String) :
    Option (List (String × Value)) × List LogMsg :=
  match blockNode, schema with
  | some b, some s =>
    match s.properties with
    | some props =>
      let r := runBlockFields f b blockName props
      (if r.1.isEmpty then none else some r.1, r.2)
    | none => (none, [LogMsg.warnInvalidInput blockName])
  | _, _ => (none, [LogMsg.warnInvalidInput blockName])

/-- The actual per-field extractor: the pure `extractSchemaValue`, which
never throws. -/
def pureExtractor : Extractor :=
  fun contextNode property sharedElement propertyName =>
    .ok (extractSchemaValue contextNode property sharedElement propertyName)

/-- Source `extractBlockWithSchema` applied to the actual engine. -/
def extractBlockWithSchema (blockNode : Option Element)
    (schema : Option BlockSchema) (blockName : String) :
    Option (List (String × Value)) × List LogMsg :=
  extractBlockWithSchemaF pureExtractor blockNode schema blockName

/-- The fields of `Ctx` read by `fetchBlockSchema`. -/
structure Ctx where
  edsDomainUrl : Option String
  sourceUrl : Option String

/-- The HTTP response surface read by `fetchBlockSchema`: `ok`, `status`
and the result of `response.json()` (which may throw on malformed JSON). -/
structure FetchResponse where
  ok : Bool
  status : Nat
  json : Except String BlockSchema

/-- The external world of `fetchBlockSchema`: `new URL(u)` (protocol and
hostname, or a throw) and `fetch` (a response, or a network failure). -/
structure FetchWorld where
  parseUrl : String → Option (String × String)
  fetch : String → Except String FetchResponse

/-- Source `fetchBlockSchema`: resolve the base domain from
`ctx.edsDomainUrl` or from `ctx.sourceUrl`, build the schema address,
fetch it, and degrade every failure to `none` with one warning; the outer
`catch` turns a network failure or a `response.json()` throw into the
`Failed to fetch schema` warning. -/
def fetchBlockSchema (w : FetchWorld) (blockName : String) (ctx : Ctx) :
    Option BlockSchema × List LogMsg :=
  let step := fun (baseDomain : Option String) =>
    if !jsTruthyS baseDomain then
      ((none : Option BlockSchema), [LogMsg.warnNoDomain blockName])
    else
      let schemaUrl := baseDomain.getD "" ++ "/blocks/" ++ blockName ++ "/"
        ++ blockName ++ ".schema.json"
      match w.fetch schemaUrl with
      | .error e => (none, [LogMsg.warnFetchFailed blockName e])
      | .ok resp =>
        if resp.ok then
          match resp.json with
          | .ok schema => (some schema, [])
          | .error e => (none, [LogMsg.warnFetchFailed blockName e])
        else
          (none, [LogMsg.warnSchemaNotFound blockName schemaUrl resp.status])
  if !jsTruthyS ctx.edsDomainUrl && jsTruthyS ctx.sourceUrl then
    match w.parseUrl (ctx.sourceUrl.getD "") with
    | none => (none, [LogMsg.warnDomainExtract (ctx.sourceUrl.getD "")])
    | some (protocol, hostname) => step (some (protocol ++ "//" ++ hostname))
  else
    step ctx.edsDomainUrl

/-- Whether a warning interpolates the attempted schema address or the
response status: only the `Schema not found ... at ... (status)` warning
does. -/
def mentionsAddressOrStatus : LogMsg → Bool
  | .warnSchemaNotFound _ _ _ => true
  | .warnDomainExtract _ => true
  | _ => false

mutual

/-- Erase every `required` list of a schema property, recursively; two
properties are identical except for `required` lists exactly when their
erasures coincide. -/
def eraseRequired : SchemaProperty → SchemaProperty
  | .str sel attr => .str sel attr
  | .arr sel none => .arr sel none
  | .arr sel (some items) => .arr sel (some (eraseRequired items))
  | .obj sel none _ => .obj sel none none
  | .obj sel (some fields) _ => .obj sel (some (eraseRequiredFields fields)) none
  | .other t => .other t

def eraseRequiredFields : List (String × SchemaProperty) → List (String × SchemaProperty)
  | [] => []
  | (propName, propSchema) :: rest =>
    (propName, eraseRequired propSchema) :: eraseRequiredFields rest

end

/-- Erase the `required` lists of a whole block schema. -/
def eraseRequiredSchema (s : BlockSchema) : BlockSchema :=
  { properties :=
      match s.properties with
      | none => none
      | some fields => some (eraseRequiredFields fields),
    required := none }

/-- The attribute-name priority as the specification words it: the
explicit attribute setting whenever present, else the field's own name
whenever present, else the text sentinel (a refinement reference for the
resolution actually implemented by `resolveAttributeName`). -/
def claimedAttributeName (attr propertyName : Option String) : String :=
  match attr with
  | some a => a
  | none =>
    match propertyName with
    | some n => n
    | none => "text"

/-- An anchor carrying a non-empty `href` attribute and text content. -/
def elHrefFull : Element := .mk "a" [("href", "hX")] [Sum.inl "T"]

/-- An anchor whose `href` attribute is present but empty, with text. -/
def elHrefEmpty : Element := .mk "a" [("href", "")] [Sum.inl "T"]

/-- An element carrying a `link` attribute and text content. -/
def elLinkAttr : Element := .mk "span" [("link", "W")] [Sum.inl "T"]

/-- The element of the spec's attribute-precedence example: both
`href="X"` and text `"Y"`. -/
def elHrefX : Element := .mk "a" [("href", "X")] [Sum.inl "Y"]

/-- A context with no `li` descendant but some other content. -/
def elNoLi : Element := .mk "div" [] [Sum.inr (.mk "p" [] [Sum.inl "z"])]

/-- A list context with two `li` items, `x` and `y`. -/
def elListXY : Element :=
  .mk "ul" [] [Sum.inr (.mk "li" [] [Sum.inl "x"]),
               Sum.inr (.mk "li" [] [Sum.inl "y"])]

/-- A block context: an `h2` child `Hi` and a `p` child with a `cta`
attribute. -/
def elBlock : Element :=
  .mk "div" [] [Sum.inr (.mk "h2" [("title", "TA")] [Sum.inl "Hi"]),
                Sum.inr (.mk "p" [("cta", "Go")] [Sum.inl "Click"])]

/-- A per-field extractor that throws on properties tagged `fail` and
otherwise behaves as the engine: used to exercise the driver's `catch`. -/
def failingExtractor : Extractor :=
  fun contextNode property sharedElement propertyName =>
    if property.typeTag = "fail" then .error "ex"
    else .ok (extractSchemaValue contextNode property sharedElement propertyName)

/-- Root fields for the driver witness: the first field throws, the
second extracts the block's `h2` text. -/
def propsW5 : List (String × SchemaProperty) :=
  [("a", .other "fail"), ("title", .str (some "h2") none)]

/-- A world whose `fetch` always fails with a network error. -/
def worldNetFail : FetchWorld :=
  { parseUrl := fun _ => none, fetch := fun _ => .error "network down" }

/-- A world whose `fetch` returns a non-success 404 response. -/
def world404 : FetchWorld :=
  { parseUrl := fun _ => none,
    fetch := fun _ => .ok { ok := false, status := 404, json := .error "no body" } }

/-- A context carrying a direct EDS domain. -/
def ctxDomain : Ctx := { edsDomainUrl := some "https://e.com", sourceUrl := none }

/-- Two block schemas for the `required`-irrelevance witness, identical
except for their `required` lists at the root and in the nested object. -/
def schemaReqA : BlockSchema :=
  { properties := some [("card", .obj (some "p")
      (some [("cta", .str none none)]) (some ["cta"]))],
    required := some ["card"] }

/-- See `schemaReqA`: the same schema with all `required` lists dropped. -/
def schemaReqB : BlockSchema :=
  { properties := some [("card", .obj (some "p")
      (some [("cta", .str none none)]) none)],
    required := none }

/-- A produced string value is never empty: both branches of
`extractStringValue` apply `value || null`. -/
theorem extractStringValue_ne_empty (contextNode : Element)
    (selector attr : Option String) (sharedElement : Option Element)
    (propertyName : Option String) (s : String)
    (h : extractStringValue contextNode selector attr sharedElement propertyName
      = some s) : s ≠ "" := by
  simp only [extractStringValue] at h
  split at h
  · split at h
    · exact absurd h (by simp)
    · next hne => obtain rfl := Option.some.inj h; exact hne
  · split at h
    · split at h
      · exact absurd h (by simp)
      · next hne => obtain rfl := Option.some.inj h; exact hne
    · exact absurd h (by simp)

/-- Every value the engine produces is truthy in the JavaScript sense:
strings are non-empty, arrays and objects are always truthy. -/
theorem extract_fst_truthy (contextNode : Element) (property : SchemaProperty)
    (sharedElement : Option Element) (propertyName : Option String) (v : Value)
    (h : (extractSchemaValue contextNode property sharedElement propertyName).1
      = some v) : truthyV v = true := by
  match property with
  | .str sel attr =>
    simp only [extractSchemaValue, Option.map_eq_some'] at h
    obtain ⟨s, hs, rfl⟩ := h
    simpa [truthyV] using extractStringValue_ne_empty _ _ _ _ _ _ hs
  | .arr sel items =>
    rw [extractSchemaValue] at h
    rcases sel with _ | s
    · rcases items with _ | it <;>
        (simp only [extractArrayValue] at h; exact absurd h (by simp))
    · rcases items with _ | it
      · simp only [extractArrayValue] at h; exact absurd h (by simp)
      · simp only [extractArrayValue] at h
        split at h
        · exact absurd h (by simp)
        · split at h
          · exact absurd h (by simp)
          · split at h
            · exact absurd h (by simp)
            · obtain rfl := Option.some.inj h; rfl
  | .obj sel props req =>
    rw [extractSchemaValue] at h
    rw [extractObjectValue.eq_def] at h
    split at h
    · exact absurd h (by simp)
    · dsimp only at h
      split at h
      · exact absurd h (by simp)
      · obtain rfl := Option.some.inj h; rfl
  | .other t =>
    rw [extractSchemaValue] at h
    split at h <;> exact absurd h (by simp)

/-- On a list all of whose present values are truthy, JavaScript
`.filter(Boolean)` keeps exactly the present values. -/
theorem jsFilterBoolean_eq_filterMap (rs : List (Option Value))
    (h : ∀ v, some v ∈ rs → truthyV v = true) :
    jsFilterBoolean rs = rs.filterMap id := by
  induction rs with
  | nil => rfl
  | cons r rest ih =>
    have hrest : ∀ v, some v ∈ rest → truthyV v = true :=
      fun v hv => h v (List.mem_cons_of_mem _ hv)
    cases r with
    | none => simpa [jsFilterBoolean, List.filterMap] using ih hrest
    | some v =>
      have hv : truthyV v = true := h v (List.mem_cons_self _ _)
      simp only [jsFilterBoolean, List.filterMap] at *
      simp [hv, ih hrest]

/-- The values of the array-item loop are those of mapping the engine
over the matched elements, with no shared element and no field name. -/
theorem extractItems_fst (elements : List Element) (itemsSchema : SchemaProperty) :
    (extractItems elements itemsSchema).1 =
      elements.map (fun e => (extractSchemaValue e itemsSchema none none).1) := by
  induction elements with
  | nil => simp [extractItems]
  | cons e rest ih => rw [extractItems]; simpa using ih

/-- The fields the object loop collects: each declared child, in
declaration order, extracted against `sharedElement || contextNode` with
the shared element and its own name passed down; omitted children are
dropped, extracted ones are keyed by field name. -/
theorem extractFields_fst (contextNode : Element) (sharedElement : Option Element)
    (fields : List (String × SchemaProperty)) :
    (extractFields contextNode sharedElement fields).1 =
      fields.filterMap (fun pp =>
        ((extractSchemaValue (sharedElement.getD contextNode) pp.2 sharedElement
          (some pp.1)).1).map (fun v => (pp.1, v))) := by
  induction fields with
  | nil => simp [extractFields]
  | cons pp rest ih =>
    obtain ⟨propName, propSchema⟩ := pp
    rw [extractFields]
    dsimp only
    rw [ih]
    cases h : (extractSchemaValue (sharedElement.getD contextNode) propSchema
        sharedElement (some propName)).1 <;>
      simp [List.filterMap_cons, h]

/-- The mapping the driver's root loop collects: each root field in
declaration order, with no shared element; throwing or omitted fields
are dropped, extracted ones are keyed by field name. -/
theorem runBlockFields_fst (f : Extractor) (blockNode : Element)
    (blockName : String) (props : List (String × SchemaProperty)) :
    (runBlockFields f blockNode blockName props).1 =
      props.filterMap (fun pp =>
        match f blockNode pp.2 none (some pp.1) with
        | .ok (some v, _) => some (pp.1, v)
        | _ => none) := by
  induction props with
  | nil => rfl
  | cons pp rest ih =>
    obtain ⟨propName, propSchema⟩ := pp
    rw [runBlockFields]
    rcases h : f blockNode propSchema none (some propName) with e | ⟨_ | v, logs⟩ <;>
      simp [List.filterMap_cons, h, ih]

/-- A thrown field is logged by the driver with the block name and the
field name. -/
theorem runBlockFields_log_mem (f : Extractor) (blockNode : Element)
    (blockName : String) (props : List (String × SchemaProperty))
    (propName : String) (propSchema : SchemaProperty) (e : String)
    (hmem : (propName, propSchema) ∈ props)
    (herr : f blockNode propSchema none (some propName) = .error e) :
    LogMsg.warnFieldError blockName propName e ∈
      (runBlockFields f blockNode blockName props).2 := by
  induction props with
  | nil => simp at hmem
  | cons pp rest ih =>
    rw [runBlockFields]
    rcases List.mem_cons.mp hmem with heq | hrest
    · subst heq
      rw [herr]
      exact List.mem_cons_self _ _
    · rcases h : f blockNode pp.2 none (some pp.1) with e2 | ⟨_ | v, logs⟩ <;>
        simp only [] <;>
      · first
        | exact List.mem_cons_of_mem _ (ih hrest)
        | exact List.mem_append_right _ (ih hrest)

/-- Claim C1, as stated, fails on the code: on an element that carries
the `href` attribute with an empty value, `extractStringValue` takes the
trimmed-text fallback instead of returning the attribute's literal
string value — the fallback is governed by JavaScript truthiness of the
attribute value, not by its absence. -/
theorem c1_counterexample :
    extractStringValue elHrefEmpty none (some "href") (some elHrefEmpty)
      (some "link") = some "T" ∧
    getProp elHrefEmpty "href" = some "" ∧
    ("T" : String) ≠ "" := by
  refine ⟨by decide, by decide, by decide⟩

/-- Claim C1 (amended): for a `String` property whose resolved attribute
name is not the text sentinel, if the resolved search element carries
that attribute with a non-empty value then `extractStringValue` returns
that literal (untrimmed) value; the trimmed-descendant-text fallback is
taken exactly when the attribute is absent or present with an empty
value. -/
theorem c1_theorem (contextNode : Element) (selector attr : Option String)
    (sharedElement : Option Element) (propertyName : Option String)
    (e : Element) (an : String)
    (hfind : findElement contextNode selector sharedElement = some e)
    (hname : resolveAttributeName attr propertyName = an)
    (htext : an ≠ "text") :
    (∀ v, getProp e an = some v → v ≠ "" →
      extractStringValue contextNode selector attr sharedElement propertyName
        = some v) ∧
    ((getProp e an = none ∨ getProp e an = some "") →
      extractStringValue contextNode selector attr sharedElement propertyName
        = (if jsTrim (getText e) = "" then none else some (jsTrim (getText e)))) := by
  subst hname
  constructor
  · intro v hv hne
    simp [extractStringValue, hfind, extractValueFromElement, htext, hv, hne]
  · intro hcase
    rcases hcase with h | h <;>
      simp [extractStringValue, hfind, extractValueFromElement, htext, h]

/-- Witness for `c1_theorem` at a concrete input: the shared element
carries `href="hX"`, and the literal value is returned. -/
theorem c1_witness :
    extractStringValue elHrefFull none (some "href") (some elHrefFull)
      (some "link") = some "hX" :=
  (c1_theorem elHrefFull none (some "href") (some elHrefFull) (some "link")
    elHrefFull "href" rfl rfl (by decide)).1 "hX" (by decide) (by decide)

/-- Claim C2: for a `String` property declaring a (genuine, non-empty)
selector, a failed first-match query under the context element yields
omission, even when a shared element is available; the query result is
never retried against the shared element, and the shared element is
consulted only when the selector is absent. -/
theorem c2_theorem (contextNode : Element) (s : String) (attr : Option String)
    (sharedElement : Option Element) (propertyName : Option String)
    (hs : s ≠ "") (hm : eselect s contextNode = none) :
    extractStringValue contextNode (some s) attr sharedElement propertyName
      = none ∧
    findElement contextNode (some s) sharedElement = eselect s contextNode ∧
    (∀ e, findElement contextNode none (some e) = some e) := by
  refine ⟨?_, ?_, fun e => rfl⟩
  · simp [extractStringValue, findElement, hs, hm, jsTruthyS]
  · simp [findElement, hs]

/-- Witness for `c2_theorem`: the selector `li` has no match under a
`div`/`p` context, so the property is omitted even though a shared
element with text is available. -/
theorem c2_witness :
    extractStringValue elNoLi (some "li") none (some elHrefFull) none = none :=
  (c2_theorem elNoLi "li" none (some elHrefFull) none (by decide)
    (by simp [eselect, selectAll, selectAllChildren, Element.children,
      selMatches, Element.tagName, elNoLi])).1

/-- Claim C6, as stated, fails on the code: an explicit but empty
`x-eds-attribute` setting is skipped by the JavaScript `||` chain, so the
field's own name is used instead of the explicit setting; on an element
with `link="W"` and text `"T"` the result is the attribute read through
the field name (`"W"`), not the result the claimed priority would give
(the empty attribute name, absent, falling back to text `"T"`). -/
theorem c6_counterexample :
    resolveAttributeName (some "") (some "link") = "link" ∧
    claimedAttributeName (some "") (some "link") = "" ∧
    extractStringValue elLinkAttr none (some "") (some elLinkAttr)
      (some "link") = some "W" ∧
    extractValueFromElement elLinkAttr
      (claimedAttributeName (some "") (some "link")) = "T" ∧
    ("W" : String) ≠ "T" := by
  refine ⟨by decide, by decide, by decide, by decide, by decide⟩

/-- Claim C6 (amended): the attribute name is resolved to the first
non-empty setting in the priority order — explicit attribute setting,
then the field's own name — and to the text sentinel when both are
missing or empty; in particular the property `{type: string, attribute:
"href"}` named `link` on an element with both `href="X"` and text `"Y"`
yields `"X"`. -/
theorem c6_theorem (el : Element) (attr propertyName : Option String) :
    (∀ a, attr = some a → a ≠ "" →
      extractStringValue el none attr (some el) propertyName
        = (if extractValueFromElement el a = ""
           then none else some (extractValueFromElement el a))) ∧
    (∀ n, jsTruthyS attr = false → propertyName = some n → n ≠ "" →
      extractStringValue el none attr (some el) propertyName
        = (if extractValueFromElement el n = ""
           then none else some (extractValueFromElement el n))) ∧
    (jsTruthyS attr = false → jsTruthyS propertyName = false →
      extractStringValue el none attr (some el) propertyName
        = (if extractValueFromElement el "text" = ""
           then none else some (extractValueFromElement el "text"))) ∧
    extractStringValue elHrefX none (some "href") (some elHrefX) (some "link")
      = some "X" := by
  refine ⟨?_, ?_, ?_, by decide⟩
  · intro a ha hne
    subst ha
    simp [extractStringValue, findElement, resolveAttributeName, jsOrStr, hne]
  · intro n hattr hn hne
    subst hn
    rcases attr with _ | a
    · simp [extractStringValue, findElement, resolveAttributeName, jsOrStr, hne]
    · have ha : a = "" := by simpa [jsTruthyS] using hattr
      subst ha
      simp [extractStringValue, findElement, resolveAttributeName, jsOrStr, hne]
  · intro hattr hnm
    rcases attr with _ | a <;> rcases propertyName with _ | n
    · simp [extractStringValue, findElement, resolveAttributeName, jsOrStr]
    · have hn : n = "" := by simpa [jsTruthyS] using hnm
      subst hn
      simp [extractStringValue, findElement, resolveAttributeName, jsOrStr]
    · have ha : a = "" := by simpa [jsTruthyS] using hattr
      subst ha
      simp [extractStringValue, findElement, resolveAttributeName, jsOrStr]
    · have ha : a = "" := by simpa [jsTruthyS] using hattr
      have hn : n = "" := by simpa [jsTruthyS] using hnm
      subst ha; subst hn
      simp [extractStringValue, findElement, resolveAttributeName, jsOrStr]

/-- Witness for `c6_theorem`: a non-empty explicit attribute setting wins
over the field name. -/
theorem c6_witness :
    extractStringValue elHrefFull none (some "href") (some elHrefFull)
      (some "link")
      = (if extractValueFromElement elHrefFull "href" = ""
         then none else some (extractValueFromElement elHrefFull "href")) :=
  (c6_theorem elHrefFull (some "href") (some "link")).1 "href" rfl (by decide)

/-- `filterMap id` after mapping an option-producing function is the
`filterMap` of that function. -/
theorem filterMap_id_of_map {α β : Type} (f : α → Option β) (l : List α) :
    (l.map f).filterMap id = l.filterMap f := by
  induction l with
  | nil => rfl
  | cons a rest ih => cases h : f a <;> simp [List.filterMap_cons, h, ih]

/-- A field whose extraction is omitted contributes nothing to the object
loop: dropping it from the field list leaves the collected mapping
unchanged. -/
theorem extractFields_drop_none (contextNode : Element)
    (sharedElement : Option Element) (l₁ l₂ : List (String × SchemaProperty))
    (pn : String) (p : SchemaProperty)
    (hp : (extractSchemaValue (sharedElement.getD contextNode) p sharedElement
      (some pn)).1 = none) :
    (extractFields contextNode sharedElement (l₁ ++ (pn, p) :: l₂)).1 =
    (extractFields contextNode sharedElement (l₁ ++ l₂)).1 := by
  rw [extractFields_fst, extractFields_fst, List.filterMap_append,
    List.filterMap_append, List.filterMap_cons]
  simp [hp]

/-- Claim C3: for an `Object` property, a missing or empty field mapping
and zero non-omitted children each yield omission, never an empty
mapping; a non-empty truthy selector resolves the shared element by one
first-match query, and that element is passed as both the extraction
context and the shared element to every child field, collected keyed by
field name in declaration order; a child `String` field with no selector
then reads the resolved element itself. -/
theorem c3_theorem (contextNode : Element) (sel : Option String)
    (props : Option (List (String × SchemaProperty))) (req : Option (List String))
    (sharedElement : Option Element) (propertyName : Option String) :
    ((props = none ∨ props = some []) →
      (extractSchemaValue contextNode (.obj sel props req) sharedElement
        propertyName).1 = none) ∧
    (∀ fields, props = some fields →
      (extractSchemaValue contextNode (.obj sel props req) sharedElement
          propertyName).1 =
        (let sharedE : Option Element :=
           match sel with
           | some s => if s = "" then none else eselect s contextNode
           | none => none
         let d := fields.filterMap (fun pp =>
           ((extractSchemaValue (sharedE.getD contextNode) pp.2 sharedE
             (some pp.1)).1).map (fun v => (pp.1, v)))
         if d.isEmpty then none else some (Value.obj d))) ∧
    (∀ s E fields, sel = some s → s ≠ "" → eselect s contextNode = some E →
      props = some fields →
      (extractSchemaValue contextNode (.obj sel props req) sharedElement
          propertyName).1 =
        (let d := fields.filterMap (fun pp =>
           ((extractSchemaValue E pp.2 (some E) (some pp.1)).1).map
             (fun v => (pp.1, v)))
         if d.isEmpty then none else some (Value.obj d))) ∧
    (∀ E attr pn, findElement E none (some E) = some E ∧
      (extractSchemaValue E (.str none attr) (some E) (some pn)).1 =
        (extractStringValue E none attr (some E) (some pn)).map Value.str) := by
  have key : ∀ fields, props = some fields →
      (extractSchemaValue contextNode (.obj sel props req) sharedElement
          propertyName).1 =
        (let sharedE : Option Element :=
           match sel with
           | some s => if s = "" then none else eselect s contextNode
           | none => none
         let d := fields.filterMap (fun pp =>
           ((extractSchemaValue (sharedE.getD contextNode) pp.2 sharedE
             (some pp.1)).1).map (fun v => (pp.1, v)))
         if d.isEmpty then none else some (Value.obj d)) := by
    intro fields hf
    subst hf
    rw [extractSchemaValue, extractObjectValue.eq_def]
    dsimp only
    rw [extractFields_fst]
  refine ⟨?_, key, ?_, ?_⟩
  · rintro (rfl | rfl)
    · rw [extractSchemaValue, extractObjectValue.eq_def]
    · rw [key [] rfl]
      simp
  · intro s E fields hsel hs hE hf
    rw [key fields hf]
    subst hsel
    simp only [hs, if_neg, hE]
    simp [hE, hs]
  · intro E attr pn
    refine ⟨rfl, ?_⟩
    rw [extractSchemaValue]

/-- Witness for `c3_theorem`: the object selector `p` resolves the block's
`p` child, and the child field `cta` (a `String` with no selector) reads
that element's `cta` attribute. -/
theorem c3_witness :
    (extractSchemaValue elBlock
        (.obj (some "p") (some [("cta", .str none none)]) (some ["cta"]))
        none none).1 =
      (let d := [("cta", SchemaProperty.str none none)].filterMap (fun pp =>
         ((extractSchemaValue (Element.mk "p" [("cta", "Go")] [Sum.inl "Click"])
           pp.2 (some (Element.mk "p" [("cta", "Go")] [Sum.inl "Click"]))
           (some pp.1)).1).map (fun v => (pp.1, v)))
       if d.isEmpty then none else some (Value.obj d)) :=
  (c3_theorem elBlock (some "p") (some [("cta", .str none none)])
      (some ["cta"]) none none).2.2.1 "p"
    (Element.mk "p" [("cta", "Go")] [Sum.inl "Click"])
    [("cta", .str none none)] rfl (by decide)
    (by simp [eselect, selectAll, selectAllChildren, elBlock, Element.children,
      selMatches, Element.tagName]) rfl

/-- Claim C4: for an `Array` property, a missing selector or items schema
yields omission; with a genuine selector and items schema, every
descendant matching the selector is extracted in document order against
the items schema with no inherited shared element, the non-omitted
results are collected preserving match order, and the result is that
sequence when non-empty, else omission — an `Array` result is never an
empty sequence. -/
theorem c4_theorem (contextNode : Element) :
    (∀ (sel : Option String) (items : Option SchemaProperty),
      sel = none ∨ items = none →
      extractArrayValue contextNode sel items = (none, [])) ∧
    (∀ (s : String) (it : SchemaProperty), s ≠ "" →
      (extractArrayValue contextNode (some s) (some it)).1 =
        (let vs := (selectAll s contextNode).filterMap
           (fun e => (extractSchemaValue e it none none).1)
         if vs.isEmpty then none else some (Value.arr vs))) ∧
    (∀ sel items v, (extractArrayValue contextNode sel items).1 = some v →
      ∃ vs, v = Value.arr vs ∧ vs ≠ []) := by
  refine ⟨?_, ?_, ?_⟩
  · rintro sel items (rfl | rfl)
    · rcases items with _ | it <;> rw [extractArrayValue.eq_def]
    · rcases sel with _ | s <;> rw [extractArrayValue.eq_def]
  · intro s it hs
    rw [extractArrayValue.eq_def]
    dsimp only
    rw [if_neg hs]
    have htr : ∀ v, some v ∈ (extractItems (selectAll s contextNode) it).1 →
        truthyV v = true := by
      intro v hv
      rw [extractItems_fst] at hv
      obtain ⟨e, _, he⟩ := List.mem_map.mp hv
      exact extract_fst_truthy e it none none v he
    rw [jsFilterBoolean_eq_filterMap _ htr, extractItems_fst,
      filterMap_id_of_map]
    split
    · next hemp =>
      have : selectAll s contextNode = [] := by
        simpa [List.isEmpty_iff] using hemp
      simp [this]
    · rfl
  · intro sel items v h
    rcases sel with _ | s
    · rcases items with _ | it <;>
        (rw [extractArrayValue.eq_def] at h; exact absurd h (by simp))
    · rcases items with _ | it
      · rw [extractArrayValue.eq_def] at h; exact absurd h (by simp)
      · rw [extractArrayValue.eq_def] at h
        dsimp only at h
        split at h
        · exact absurd h (by simp)
        · split at h
          · exact absurd h (by simp)
          · split at h
            · exact absurd h (by simp)
            · next hne =>
              obtain rfl := Option.some.inj h
              exact ⟨_, rfl, by simpa [List.isEmpty_iff] using hne⟩

/-- Witness for `c4_theorem`: the selector `li` under the two-item list
extracts both items in document order. -/
theorem c4_witness :
    (extractArrayValue elListXY (some "li") (some (.str none none))).1 =
      (let vs := (selectAll "li" elListXY).filterMap
         (fun e => (extractSchemaValue e (.str none none) none none).1)
       if vs.isEmpty then none else some (Value.arr vs)) :=
  (c4_theorem elListXY).2.1 "li" (.str none none) (by decide)

/-- Claim C8, as stated, fails on the code: the empty string is a type
tag that is none of `string`, `array` or `object`, yet the input
validation `!property.type` rejects it silently — the result is omission
with no diagnostic emitted. -/
theorem c8_counterexample :
    extractSchemaValue elNoLi (.other "") none none = (none, []) := by
  rw [extractSchemaValue]
  simp

/-- Claim C8 (amended): a property whose non-empty type tag is none of
`string`, `array` or `object` makes `extractSchemaValue` emit one
diagnostic and return omission (the empty tag is instead rejected
silently by input validation); an unsupported tag never aborts sibling
fields of an enclosing `Object` or of the block driver. -/
theorem c8_theorem (contextNode : Element) (t : String)
    (sharedElement : Option Element) (propertyName : Option String)
    (ht : t ≠ "") :
    extractSchemaValue contextNode (.other t) sharedElement propertyName
      = (none, [LogMsg.warnUnsupportedType t]) ∧
    (∀ sel req l₁ l₂ pn,
      (extractSchemaValue contextNode
        (.obj sel (some (l₁ ++ (pn, .other t) :: l₂)) req) sharedElement
        propertyName).1 =
      (extractSchemaValue contextNode (.obj sel (some (l₁ ++ l₂)) req)
        sharedElement propertyName).1) ∧
    (∀ b req l₁ l₂ pn bn,
      (extractBlockWithSchema (some b)
        (some ⟨some (l₁ ++ (pn, .other t) :: l₂), req⟩) bn).1 =
      (extractBlockWithSchema (some b) (some ⟨some (l₁ ++ l₂), req⟩) bn).1) := by
  have hnone : ∀ (ec : Element) (sh2 : Option Element) (pn2 : Option String),
      (extractSchemaValue ec (.other t) sh2 pn2).1 = none := by
    intro ec sh2 pn2
    rw [extractSchemaValue]
    split <;> rfl
  refine ⟨?_, ?_, ?_⟩
  · rw [extractSchemaValue]
    simp [ht]
  · intro sel req l₁ l₂ pn
    rw [extractSchemaValue, extractObjectValue.eq_def,
      extractSchemaValue, extractObjectValue.eq_def]
    dsimp only
    rw [extractFields_drop_none _ _ _ _ _ _ (hnone _ _ _)]
  · intro b req l₁ l₂ pn bn
    show (extractBlockWithSchemaF pureExtractor _ _ _).1
      = (extractBlockWithSchemaF pureExtractor _ _ _).1
    simp only [extractBlockWithSchemaF]
    rw [runBlockFields_fst, runBlockFields_fst]
    rw [List.filterMap_append, List.filterMap_append, List.filterMap_cons]
    have hfull : extractSchemaValue b (.other t) none (some pn)
        = (none, [LogMsg.warnUnsupportedType t]) := by
      rw [extractSchemaValue]
      simp [ht]
    have hmid : (match pureExtractor b (.other t) none (some pn) with
        | .ok (some v, _) => some (pn, v)
        | _ => none) = (none : Option (String × Value)) := by
      simp [pureExtractor, hfull]
    rw [hmid]

/-- Witness for `c8_theorem`: the tag `number` warns and is omitted. -/
theorem c8_witness :
    extractSchemaValue elNoLi (.other "number") none none
      = (none, [LogMsg.warnUnsupportedType "number"]) :=
  (c8_theorem elNoLi "number" none none (by decide)).1

/-- Claim C5: the driver iterates the schema's root fields in declaration
order with no shared element; a field whose extraction throws is caught,
logged with the block name and field name, contributes nothing, and every
remaining field is still attempted; zero collected fields yield omission,
never an empty mapping. -/
theorem c5_theorem (f : Extractor) (blockNode : Element)
    (props : List (String × SchemaProperty)) (req : Option (List String))
    (blockName : String) :
    (extractBlockWithSchemaF f (some blockNode) (some ⟨some props, req⟩)
        blockName).1 =
      (let d := props.filterMap (fun pp =>
         match f blockNode pp.2 none (some pp.1) with
         | .ok (some v, _) => some (pp.1, v)
         | _ => none)
       if d.isEmpty then none else some d) ∧
    (∀ pn ps e, (pn, ps) ∈ props → f blockNode ps none (some pn) = .error e →
      LogMsg.warnFieldError blockName pn e ∈
        (extractBlockWithSchemaF f (some blockNode) (some ⟨some props, req⟩)
          blockName).2) := by
  constructor
  · simp only [extractBlockWithSchemaF]
    rw [runBlockFields_fst]
  · intro pn ps e hmem herr
    simp only [extractBlockWithSchemaF]
    exact runBlockFields_log_mem f blockNode blockName props pn ps e hmem herr

/-- Witness for `c5_theorem`: the first root field throws and is logged
with the block name and field name, while the second field is still
extracted. -/
theorem c5_witness :
    LogMsg.warnFieldError "blk" "a" "ex" ∈
      (extractBlockWithSchemaF failingExtractor (some elBlock)
        (some ⟨some propsW5, none⟩) "blk").2 :=
  (c5_theorem failingExtractor elBlock propsW5 none "blk").2 "a"
    (.other "fail") "ex" (by simp [propsW5]) rfl

/-- Claim C10: a missing block element, a missing schema, or a schema
without a root `properties` mapping makes the driver return omission
immediately after a single warning, independently of the per-field
extractor — no field extraction is attempted. -/
theorem c10_theorem (f : Extractor) (blockName : String)
    (blockNode : Option Element) (schema : Option BlockSchema)
    (h : blockNode = none ∨ schema = none ∨
      ∃ s, schema = some s ∧ s.properties = none) :
    extractBlockWithSchemaF f blockNode schema blockName
      = (none, [LogMsg.warnInvalidInput blockName]) := by
  rcases h with rfl | rfl | ⟨s, rfl, hs⟩
  · cases schema <;> rfl
  · cases blockNode <;> rfl
  · cases blockNode with
    | none => rfl
    | some b => simp [extractBlockWithSchemaF, hs]

/-- Witness for `c10_theorem`: both inputs missing. -/
theorem c10_witness :
    extractBlockWithSchema none none "blk"
      = (none, [LogMsg.warnInvalidInput "blk"]) :=
  c10_theorem pureExtractor "blk" none none (Or.inl rfl)

/-- Claim C7, as stated, fails on the code: a network failure is degraded
to `none`, but its warning (`Failed to fetch schema for block ...`)
interpolates only the block name and the error — not the attempted
address or the status. -/
theorem c7_counterexample :
    fetchBlockSchema worldNetFail "hero" ctxDomain
      = (none, [LogMsg.warnFetchFailed "hero" "network down"]) ∧
    mentionsAddressOrStatus (LogMsg.warnFetchFailed "hero" "network down")
      = false :=
  ⟨rfl, rfl⟩

/-- Claim C7 (amended): `fetchBlockSchema` never raises — it is a total
function degrading every failure to `none` with one warning: a
non-success status is logged with the attempted address and the status,
while a network failure or malformed JSON is logged with the block name
and the error only. -/
theorem c7_theorem (w : FetchWorld) (blockName : String) (ctx : Ctx)
    (hdom : jsTruthyS ctx.edsDomainUrl = true) :
    (∀ e, w.fetch (ctx.edsDomainUrl.getD "" ++ "/blocks/" ++ blockName ++ "/"
        ++ blockName ++ ".schema.json") = .error e →
      fetchBlockSchema w blockName ctx
        = (none, [LogMsg.warnFetchFailed blockName e])) ∧
    (∀ resp, w.fetch (ctx.edsDomainUrl.getD "" ++ "/blocks/" ++ blockName
        ++ "/" ++ blockName ++ ".schema.json") = .ok resp → resp.ok = false →
      fetchBlockSchema w blockName ctx
        = (none, [LogMsg.warnSchemaNotFound blockName
            (ctx.edsDomainUrl.getD "" ++ "/blocks/" ++ blockName ++ "/"
              ++ blockName ++ ".schema.json") resp.status]) ∧
      mentionsAddressOrStatus (LogMsg.warnSchemaNotFound blockName
        (ctx.edsDomainUrl.getD "" ++ "/blocks/" ++ blockName ++ "/"
          ++ blockName ++ ".schema.json") resp.status) = true) ∧
    (∀ resp e, w.fetch (ctx.edsDomainUrl.getD "" ++ "/blocks/" ++ blockName
        ++ "/" ++ blockName ++ ".schema.json") = .ok resp → resp.ok = true →
      resp.json = .error e →
      fetchBlockSchema w blockName ctx
        = (none, [LogMsg.warnFetchFailed blockName e])) ∧
    (∀ resp s, w.fetch (ctx.edsDomainUrl.getD "" ++ "/blocks/" ++ blockName
        ++ "/" ++ blockName ++ ".schema.json") = .ok resp → resp.ok = true →
      resp.json = .ok s →
      fetchBlockSchema w blockName ctx = (some s, [])) := by
  refine ⟨?_, ?_, ?_, ?_⟩ <;>
    simp only [fetchBlockSchema, hdom, Bool.not_true, Bool.false_and,
      Bool.not_false, if_false, Bool.false_eq_true]
  · intro e hfetch
    simp [hfetch]
  · intro resp hfetch hok
    simp [hfetch, hok, mentionsAddressOrStatus]
  · intro resp e hfetch hok hjson
    simp [hfetch, hok, hjson]
  · intro resp s hfetch hok hjson
    simp [hfetch, hok, hjson]

/-- Witness for `c7_theorem`: a 404 response is logged with the attempted
address and status, and the schema is reported not available. -/
theorem c7_witness :
    fetchBlockSchema world404 "hero" ctxDomain
      = (none, [LogMsg.warnSchemaNotFound "hero"
          "https://e.com/blocks/hero/hero.schema.json" 404]) ∧
    mentionsAddressOrStatus (LogMsg.warnSchemaNotFound "hero"
      "https://e.com/blocks/hero/hero.schema.json" 404) = true := by
  have h := (c7_theorem world404 "hero" ctxDomain rfl).2.1
    { ok := false, status := 404, json := .error "no body" } rfl rfl
  exact h

/-- The engine never reads `required` lists: extraction of any property
is invariant under erasing every `required` list, shown by strong
induction on the size of the property. -/
theorem extract_erase_aux : ∀ (n : Nat) (p : SchemaProperty), sizeOf p ≤ n →
    ∀ (contextNode : Element) (sharedElement : Option Element)
      (propertyName : Option String),
    extractSchemaValue contextNode (eraseRequired p) sharedElement propertyName
      = extractSchemaValue contextNode p sharedElement propertyName := by
  intro n
  induction n with
  | zero =>
    intro p hp
    exfalso
    cases p <;> simp at hp
  | succ n ih =>
    intro p hp contextNode sharedElement propertyName
    match p with
    | .str sel attr => rw [eraseRequired]
    | .other t => rw [eraseRequired]
    | .arr sel items =>
      match items with
      | none => rw [eraseRequired]
      | some it =>
        have hit : sizeOf it ≤ n := by
          simp only [SchemaProperty.arr.sizeOf_spec, Option.some.sizeOf_spec] at hp
          omega
        have hitems : ∀ es, extractItems es (eraseRequired it)
            = extractItems es it := by
          intro es
          induction es with
          | nil => rw [extractItems, extractItems]
          | cons e rest ihes =>
            rw [extractItems, extractItems, ih it hit e none none, ihes]
        rw [eraseRequired, extractSchemaValue, extractSchemaValue,
          extractArrayValue.eq_def, extractArrayValue.eq_def]
        rcases sel with _ | s
        · rfl
        · dsimp only
          rw [hitems]
    | .obj sel props req =>
      match props with
      | none =>
        rw [eraseRequired, extractSchemaValue, extractSchemaValue]
      | some fields =>
        have hfs : sizeOf fields ≤ n := by
          simp only [SchemaProperty.obj.sizeOf_spec, Option.some.sizeOf_spec] at hp
          omega
        have hF : ∀ fs, sizeOf fs ≤ n → ∀ (ctx2 : Element) (sh2 : Option Element),
            extractFields ctx2 sh2 (eraseRequiredFields fs)
              = extractFields ctx2 sh2 fs := by
          intro fs
          induction fs with
          | nil => intro _ ctx2 sh2; rw [eraseRequiredFields]
          | cons pp rest ihf =>
            intro hle ctx2 sh2
            obtain ⟨pn2, ps2⟩ := pp
            have hps : sizeOf ps2 ≤ n := by
              simp only [List.cons.sizeOf_spec, Prod.mk.sizeOf_spec] at hle
              omega
            have hrest : sizeOf rest ≤ n := by
              simp only [List.cons.sizeOf_spec, Prod.mk.sizeOf_spec] at hle
              omega
            rw [eraseRequiredFields, extractFields, extractFields,
              ih ps2 hps, ihf hrest]
        rw [eraseRequired, extractSchemaValue, extractSchemaValue,
          extractObjectValue.eq_def, extractObjectValue.eq_def]
        dsimp only
        rw [hF fields hfs]

/-- Claim C9: for every block element, two schemas identical except for
the `required` lists carried by the block schema or by any nested
`Object` property produce identical results — `required` is
informational only and never influences extraction. -/
theorem c9_theorem (blockNode : Element) (s₁ s₂ : BlockSchema)
    (blockName : String)
    (h : eraseRequiredSchema s₁ = eraseRequiredSchema s₂) :
    extractBlockWithSchema (some blockNode) (some s₁) blockName =
      extractBlockWithSchema (some blockNode) (some s₂) blockName := by
  have main : ∀ s : BlockSchema,
      extractBlockWithSchema (some blockNode) (some (eraseRequiredSchema s))
        blockName = extractBlockWithSchema (some blockNode) (some s) blockName := by
    intro s
    obtain ⟨props, req⟩ := s
    cases props with
    | none => rfl
    | some fields =>
      show extractBlockWithSchemaF _ _ _ _ = extractBlockWithSchemaF _ _ _ _
      simp only [extractBlockWithSchemaF, eraseRequiredSchema]
      have hrun : ∀ fs, runBlockFields pureExtractor blockNode blockName
          (eraseRequiredFields fs)
            = runBlockFields pureExtractor blockNode blockName fs := by
        intro fs
        induction fs with
        | nil => rw [eraseRequiredFields]
        | cons pp rest ihf =>
          obtain ⟨pn, ps⟩ := pp
          rw [eraseRequiredFields, runBlockFields, runBlockFields, ihf]
          have he := extract_erase_aux (sizeOf ps) ps (le_refl _) blockNode
            none (some pn)
          simp only [pureExtractor, he]
      rw [hrun]
  calc extractBlockWithSchema (some blockNode) (some s₁) blockName
      = extractBlockWithSchema (some blockNode)
          (some (eraseRequiredSchema s₁)) blockName := (main s₁).symm
    _ = extractBlockWithSchema (some blockNode)
          (some (eraseRequiredSchema s₂)) blockName := by rw [h]
    _ = extractBlockWithSchema (some blockNode) (some s₂) blockName := main s₂

/-- Witness for `c9_theorem`: dropping both the root `required` list and
the nested object's `required` list leaves the result unchanged. -/
theorem c9_witness :
    extractBlockWithSchema (some elBlock) (some schemaReqA) "blk" =
      extractBlockWithSchema (some elBlock) (some schemaReqB) "blk" :=
  c9_theorem elBlock schemaReqA schemaReqB "blk" (by
    simp [schemaReqA, schemaReqB, eraseRequiredSchema, eraseRequiredFields,
      eraseRequired])

end Mhast
